import Mathlib

/-!
# Verification of the MDU-PHL gene-screening pipeline

A shallow embedding of the core of `screen_genes/screen_genes6.py` and
`screen_genes/parallel_screen.py`, together with theorems settling the
behavioural claims made about them: strand-aware coordinate extraction,
identity/coverage filtering, exact-identity cluster numbering, summary
statistics, chunked parallel dispatch, and error-handling policies.

Conventions of the embedding:
* Python list/`Seq` slicing `s[a:b]` (with `0 ≤ a ≤ b`) becomes
  `(l.drop a).take (b - a)`; the clamping behaviour of `take`/`drop`
  matches Python's slice clamping.
* The subprocess calls to the external tools (`makeblastdb`, `tblastn`,
  `cd-hit`) are consumed as black boxes, exactly as the pipeline does:
  their outputs (raw hit lists, cluster-representative files) are inputs
  to the embedded functions.
* The filesystem is an explicit map `String → Option _` (a path either
  resolves to parsed content or is absent).
* Python dictionaries keyed by sequence strings become association lists
  with first-match lookup.
-/

namespace ScreenGenes

/-- Nucleotide alphabet (IUPAC DNA codes, as handled by the sequence
library's complement table). -/
inductive Nuc
  | A | C | G | T | R | Y | S | W | K | M | B | D | H | V | N
deriving DecidableEq, Repr

open Nuc in
/-- DNA complement of one nucleotide (the library's complement table:
`A↔T`, `C↔G`, `R↔Y`, `K↔M`, `B↔V`, `D↔H`; `S`, `W`, `N` self-paired). -/
def complement : Nuc → Nuc
  | A => T
  | T => A
  | C => G
  | G => C
  | R => Y
  | Y => R
  | S => S
  | W => W
  | K => M
  | M => K
  | B => V
  | V => B
  | D => H
  | H => D
  | N => N

/-- `Seq.reverse_complement`: complement every base and reverse. -/
def reverse_complement (l : List Nuc) : List Nuc :=
  (l.map complement).reverse

/-- Python slice `l[a:b]` for non-negative bounds. -/
def pySlice (l : List α) (a b : Nat) : List α :=
  (l.drop a).take (b - a)

/-- The extraction expression of `process_results`
(`screen_genes6.py` line 117):
`contig_seq[start-1:end] if start < end else
 contig_seq[end-1:start].reverse_complement()`. -/
def extract_gene (contig : List Nuc) (start send : Nat) : List Nuc :=
  if start < send then pySlice contig (start - 1) send
  else reverse_complement (pySlice contig (send - 1) start)

/-- One parsed line of tabular TBLASTN output
(`qseqid sseqid pident qcovs sstart send`). -/
structure RawHit where
  qseqid : String
  sseqid : String
  pident : ℚ
  qcovs : ℚ
  sstart : Nat
  send : Nat
deriving DecidableEq, Repr

/-- The retention test of `run_tblastn` (line 80):
`float(pident) >= identity_threshold and float(qcovs) >= coverage_threshold`. -/
def hitPasses (identity_threshold coverage_threshold : ℚ) (h : RawHit) : Bool :=
  decide (identity_threshold ≤ h.pident) && decide (coverage_threshold ≤ h.qcovs)

/-- The filtering stage of `run_tblastn`: from the raw hit lines, keep
exactly those passing both thresholds (lines 77-81). -/
def run_tblastn (identity_threshold coverage_threshold : ℚ)
    (hits : List RawHit) : List RawHit :=
  hits.filter (hitPasses identity_threshold coverage_threshold)

/-- Saving the filtered table (lines 84-88): the CSV is written only
when the filtered list is non-empty; otherwise no file is produced
(and a warning is printed). -/
def saveFilteredResults (identity_threshold coverage_threshold : ℚ)
    (hits : List RawHit) : Option (List RawHit) :=
  let r := run_tblastn identity_threshold coverage_threshold hits
  if r = [] then none else some r

/-- One line of the genome registry (`contigs.tab`): isolate id and the
path of its assembly file. -/
structure Genome where
  id_name : String
  contig_path : String
deriving DecidableEq, Repr

/-- A parsed contig FASTA file: contig id together with its sequence. -/
abbrev ContigFile := List (String × List Nuc)

/-- First-match lookup in an association list (dictionary lookup). -/
def lookupSeq [DecidableEq α] : List (α × β) → α → Option β
  | [], _ => none
  | (k, v) :: rest, a => if k = a then some v else lookupSeq rest a

/-- One extracted sequence record; the FASTA header
`>{id_name}_{subject_id}_{start}_{end}` carries the first four fields. -/
structure Extraction where
  isolate : String
  subject : String
  sstart : Nat
  send : Nat
  seq : List Nuc
deriving DecidableEq, Repr

/-- The body of the inner loop of `process_results` (lines 113-127) for
one registry genome and one filtered hit: look the subject contig up in
the genome's file, slice by strand, drop empty slices. -/
def extractHit (g : Genome) (file : ContigFile) (h : RawHit) : Option Extraction :=
  match lookupSeq file h.sseqid with
  | none => none
  | some contig =>
    let gs := extract_gene contig h.sstart h.send
    if gs.length = 0 then none
    else some ⟨g.id_name, h.sseqid, h.sstart, h.send, gs⟩

/-- The extraction stage of `process_results` (lines 103-127): for each
registry line in order, skip genomes whose contig file is absent,
otherwise scan the whole filtered hit table against that genome's file. -/
def process_results (fs : String → Option ContigFile)
    (registry : List Genome) (hits : List RawHit) : List Extraction :=
  registry.flatMap fun g =>
    match fs g.contig_path with
    | none => []
    | some file => hits.filterMap (extractHit g file)

/-- The guard at the top of `process_results` (lines 98-100): a missing
or empty filtered-results file aborts extraction with a warning. -/
def process_results_checked (filtered : Option (List RawHit))
    (fs : String → Option ContigFile) (registry : List Genome) : List Extraction :=
  match filtered with
  | none => []
  | some hits => process_results fs registry hits

/-- Whether a given hit yields a surviving extraction against a given
registry genome (its file present, subject contig found, slice
non-empty). -/
def survivesB (fs : String → Option ContigFile) (g : Genome) (h : RawHit) : Bool :=
  match fs g.contig_path with
  | none => false
  | some file => (extractHit g file h).isSome

/-- All (registry genome, filtered hit) pairs in processing order. -/
def genomeHitPairs (registry : List Genome) (hits : List RawHit) :
    List (Genome × RawHit) :=
  registry.flatMap fun g => hits.map fun h => (g, h)

/-- Outcome of one registry line in `create_blast_db` (lines 30-44):
the database was built, the build was skipped because the database
already exists, or a missing-contig-file warning was printed. -/
structure BuildResult where
  built : List String
  skipped : List String
  warnings : List String
deriving DecidableEq, Repr

/-- `create_blast_db` (lines 30-44): for each registry line, skip if the
database files exist and `--force_db` is off; warn and continue if the
contig file is missing; otherwise run `makeblastdb`. -/
def create_blast_db (fs : String → Option ContigFile) (dbExists : String → Bool)
    (force_db : Bool) : List Genome → BuildResult
  | [] => ⟨[], [], []⟩
  | g :: rest =>
    if !force_db && dbExists g.id_name then
      let r := create_blast_db fs dbExists force_db rest
      { r with skipped := g.id_name :: r.skipped }
    else
      match fs g.contig_path with
      | none =>
        let r := create_blast_db fs dbExists force_db rest
        { r with warnings := g.id_name :: r.warnings }
      | some _ =>
        let r := create_blast_db fs dbExists force_db rest
        { r with built := g.id_name :: r.built }

/-- The sequence → cluster-id dictionary of `generate_csv`, together
with the monotone counter (`Cluster_<k>` is modelled as the number `k`;
the Python string formatting `f"Cluster_–"` is injective in `k`). -/
structure AssignState (α : Type) where
  assign : List (α × Nat)
  counter : Nat
deriving Repr

/-- Dictionary and counter before any sequence is seen
(`nucleotide_sequences = –; nucleotide_counter = 1`). -/
def emptyAssign (α : Type) : AssignState α :=
  ⟨[], 1⟩

/-- One step of the first pass of `generate_csv` (lines 166-176): if
the sequence is not yet a key, map it to the current counter and
increment. -/
def pass1step [DecidableEq α] (st : AssignState α) (s : α) : AssignState α :=
  match lookupSeq st.assign s with
  | some _ => st
  | none => ⟨st.assign ++ [(s, st.counter)], st.counter + 1⟩

/-- The per-row lookup of the second pass of `generate_csv`
(lines 183-191): `get` with the current counter as default, then insert
and bump the counter exactly when the default was returned. -/
def getAssign [DecidableEq α] (st : AssignState α) (s : α) : Nat × AssignState α :=
  let c := (lookupSeq st.assign s).getD st.counter
  if c = st.counter then (c, ⟨st.assign ++ [(s, c)], st.counter + 1⟩)
  else (c, st)

/-- One row of `final_clustered_results.csv`. -/
structure ResultRow (α β : Type) where
  isolate_id : String
  query_name : String
  nucleotide_cluster : Nat
  nucleotide_sequence : α
  protein_cluster : Nat
  protein_sequence : β
deriving DecidableEq, Repr

/-- The second pass of `generate_csv` (lines 178-201): walk the
extracted sequences in order, assigning each row its nucleotide and
protein cluster ids through the two dictionaries. -/
def generate_csv_go [DecidableEq α] [DecidableEq β] (tr : α → β) (query_id : String) :
    List (String × α) → AssignState α → AssignState β → List (ResultRow α β)
  | [], _, _ => []
  | (iso, nseq) :: rest, nst, pst =>
    let pseq := tr nseq
    let n := getAssign nst nseq
    let p := getAssign pst pseq
    ⟨iso, query_id, n.1, nseq, p.1, pseq⟩ ::
      generate_csv_go tr query_id rest n.2 p.2

/-- `generate_csv` (lines 147-209): pre-build the two dictionaries from
the clustered nucleotide representative file and the clustered protein
representative file, then emit one row per extracted sequence.  `tr` is
the nucleotide → protein translation (genetic code table 11), consumed
as a black box. -/
def generate_csv [DecidableEq α] [DecidableEq β] (tr : α → β) (query_id : String)
    (nucReps : List α) (protReps : List β)
    (extracted : List (String × α)) : List (ResultRow α β) :=
  generate_csv_go tr query_id extracted
    (nucReps.foldl pass1step (emptyAssign α))
    (protReps.foldl pass1step (emptyAssign β))

/-- First-occurrence subsequence: the distinct elements of `E` in order
of first appearance.  This is the spec-side notion used to state
"cluster ids are assigned by first-occurrence order". -/
def firstOccs [DecidableEq α] (E : List α) : List α :=
  E.foldl (fun acc a => if a ∈ acc then acc else acc ++ [a]) []

/-- Index of the first occurrence of `a` in `l` (length of `l` when
absent). -/
def idx [DecidableEq α] : List α → α → Nat
  | [], _ => 0
  | b :: l, a => if b = a then 0 else idx l a + 1

/-- Spec-side restatement of the aggregation stage, following the
spec's words: every row keeps its isolate id and sequences, and its
cluster ids are `1 +` the first-occurrence index of its sequence in the
full encounter order (cluster-file representatives first, then the
extracted sequences themselves for the fallback path). -/
def clusterRowsSpec [DecidableEq α] [DecidableEq β] (tr : α → β) (query_id : String)
    (nucReps : List α) (protReps : List β)
    (extracted : List (String × α)) : List (ResultRow α β) :=
  extracted.map fun p =>
    ⟨p.1, query_id,
      idx (firstOccs (nucReps ++ extracted.map Prod.snd)) p.2 + 1, p.2,
      idx (firstOccs (protReps ++ extracted.map (fun q => tr q.2))) (tr p.2) + 1,
      tr p.2⟩

/-- Number of distinct values in a list (pandas `Series.nunique`). -/
def nunique [DecidableEq α] (l : List α) : Nat :=
  (firstOccs l).length

/-- The `summary_statistics.txt` record. -/
structure Summary where
  total_samples : Nat
  positive_samples : Nat
  unique_nucleotide_seqs : Nat
  unique_protein_seqs : Nat
deriving DecidableEq, Repr

/-- `generate_summary` (lines 213-247): total = registry line count;
positive = `df["Subject"].nunique()` over the filtered table when that
file exists, else 0; the two uniqueness counts are record counts of the
cluster-representative files when they exist, else 0. -/
def generate_summary (registryLines : List String)
    (filtered : Option (List RawHit))
    (nucReps : Option (List (List Nuc)))
    (protReps : Option (List String)) : Summary :=
  { total_samples := registryLines.length
    positive_samples :=
      match filtered with
      | none => 0
      | some df => nunique (df.map RawHit.sseqid)
    unique_nucleotide_seqs :=
      match nucReps with
      | none => 0
      | some l => l.length
    unique_protein_seqs :=
      match protReps with
      | none => 0
      | some l => l.length }

/-- `split_contigs_file` of `parallel_screen.py` (lines 47-64):
`num_chunks = ceil(len(lines) / chunk_size)`, chunk `i` holding
`lines[i*chunk_size : min((i+1)*chunk_size, len(lines))]`. -/
def split_contigs_file (lines : List String) (chunk_size : Nat) : List (List String) :=
  (List.range ((lines.length + chunk_size - 1) / chunk_size)).map
    fun i => (lines.drop (i * chunk_size)).take chunk_size

/-- Zero-padded formatting `f"–i:03d–"` used in chunk file names. -/
def pad3 (i : Nat) : String :=
  if i < 10 then "00" ++ toString i
  else if i < 100 then "0" ++ toString i
  else toString i

/-- Temporary chunk registry file name `contigs_chunk_<id>.tab`. -/
def chunkFileName (i : Nat) : String :=
  "contigs_chunk_" ++ pad3 i ++ ".tab"

/-- What one chunk's pipeline process did: exited 0, exited non-zero,
or raised before an exit code was available. -/
inductive ChunkOutcome
  | success
  | failure (code : Nat)
  | exn (msg : String)

/-- `run_screening` (lines 14-45): run the chunk's pipeline process,
log success / non-zero exit / exception, and in every case return the
chunk id (the `try/except` swallows exceptions and `subprocess.run` is
called without `check=True`, so a failing chunk never propagates). -/
def run_screening (chunk_id : Nat) (outcome : ChunkOutcome) : Nat × String :=
  match outcome with
  | .success => (chunk_id, "Completed chunk successfully")
  | .failure _ => (chunk_id, "ERROR: chunk failed with non-zero return code")
  | .exn _ => (chunk_id, "EXCEPTION: chunk failed with error")

/-- `os.remove` on the model filesystem (a list of present file names). -/
def removeFile (files : List String) (nm : String) : List String :=
  files.filter fun f => decide (f ≠ nm)

/-- Observable result of one run of the chunked driver. -/
structure DriverResult where
  completed : List Nat
  files : List String
  exitCode : Nat
deriving Repr

/-- `main` of `parallel_screen.py` (lines 66-134): split the registry
into chunk files, run `run_screening` once per chunk collecting every
chunk id (`pool.imap` yields in submission order), log the timing
summary, then delete every temporary chunk file and finish with exit
code 0.  The timing summary at line 124 divides `total_time` by
`len(chunk_files)`: when the split produced zero chunks this raises an
uncaught `ZeroDivisionError`, so the interpreter exits with code 1
before the cleanup loop is reached. -/
def parallel_main (lines : List String) (chunk_size : Nat)
    (files0 : List String) (outcomes : Nat → ChunkOutcome) : DriverResult :=
  let chunks := split_contigs_file lines chunk_size
  let names := (List.range chunks.length).map chunkFileName
  let withChunks := files0 ++ names
  let runs := (List.range chunks.length).map fun i => run_screening i (outcomes i)
  if chunks.length = 0 then
    { completed := runs.map Prod.fst, files := withChunks, exitCode := 1 }
  else
    let afterCleanup := names.foldl removeFile withChunks
    { completed := runs.map Prod.fst, files := afterCleanup, exitCode := 0 }

/-- The dictionary entries produced for the distinct sequences `l`
starting at id `k`: each element paired with its position offset by `k`. -/
def canonFrom : List α → Nat → List (α × Nat)
  | [], _ => []
  | a :: l, k => (a, k) :: canonFrom l (k + 1)

/-- The canonical dictionary state after encountering the sequences `E`
in order: the distinct sequences paired with ids `1, 2, …`, counter one
past the last assigned id. -/
def canonState [DecidableEq α] (E : List α) : AssignState α :=
  ⟨canonFrom (firstOccs E) 1, (firstOccs E).length + 1⟩

/-! ## Concrete data used by witness theorems -/

open Nuc in
/-- A small contig used to instantiate the extraction theorems. -/
def contigW : List Nuc := [A, C, G, T, A, C]

/-- A raw hit passing the default thresholds. -/
def hitW : RawHit := ⟨"Q1", "c1", 99, 95, 1, 6⟩

/-- A raw hit failing the identity threshold. -/
def hitW2 : RawHit := ⟨"Q1", "c2", 50, 95, 2, 4⟩

/-- A five-line registry used by the C6 witness. -/
def linesW : List String :=
  ["A\ta.fa", "B\tb.fa", "C\tc.fa", "D\td.fa", "E\te.fa"]

/-- Filesystem for the C5 counterexample: two genomes whose assembly
files both contain a contig named `c1`. -/
def fsC5 : String → Option ContigFile := fun p =>
  if p = "g1.fa" then some [("c1", [Nuc.A, Nuc.C])]
  else if p = "g2.fa" then some [("c1", [Nuc.G, Nuc.T])]
  else none

/-- Registry for the C5 counterexample. -/
def regC5 : List Genome := [⟨"G1", "g1.fa"⟩, ⟨"G2", "g2.fa"⟩]

/-- A single filtered hit whose subject contig id occurs in both
genomes' files. -/
def hitsC5 : List RawHit := [⟨"Q1", "c1", 99, 95, 1, 2⟩]

/-- Translation used by the C3 witness: all nucleotide variants
translate to the same protein (synonymous substitution). -/
def trW : String → String := fun _ => "P"

/-- Nucleotide cluster representatives for the C3 witness. -/
def nucRepsW : List String := ["AAA", "AAC"]

/-- Protein cluster representatives for the C3 witness. -/
def protRepsW : List String := ["P"]

/-- Extracted sequences for the C3 witness. -/
def extractedW : List (String × String) := [("G1", "AAA"), ("G2", "AAC"), ("G3", "AAA")]

/-- First row of the witness table. -/
def rowW1 : ResultRow String String := ⟨"G1", "Q1", 1, "AAA", 1, "P"⟩

/-- Third row of the witness table: same nucleotide sequence as the
first row, hence the same cluster ids. -/
def rowW3 : ResultRow String String := ⟨"G3", "Q1", 1, "AAA", 1, "P"⟩

/-- Registry file content for the C4 failing input: a single genome. -/
def registryLinesC4 : List String := ["G1\tg1.fa"]

/-- Filesystem for the C4 failing input: genome `G1`'s assembly has two
contigs `c1` and `c2`. -/
def fsC4 : String → Option ContigFile := fun p =>
  if p = "g1.fa" then some [("c1", [Nuc.A, Nuc.C, Nuc.G]), ("c2", [Nuc.A])] else none

/-- Registry for the C4 failing input. -/
def regC4 : List Genome := [⟨"G1", "g1.fa"⟩]

/-- Two qualifying hits for the single genome `G1`, on its two distinct
contigs. -/
def hitsC4 : List RawHit := [⟨"Q1", "c1", 99, 95, 1, 3⟩, ⟨"Q1", "c2", 99, 95, 1, 1⟩]

/-- Per-chunk outcomes for the C7 witness: every chunk fails, the first
with a non-zero exit code and the rest by raising. -/
def outcomesW : Nat → ChunkOutcome := fun i =>
  if i = 0 then ChunkOutcome.failure 2 else ChunkOutcome.exn "tool crashed"

/-- Pre-existing files for the C7 witness. -/
def filesBaseW : List String := ["contigs.tab", "query.fasta"]

/-! ## Lemmas and claim theorems -/

theorem complement_complement (n : Nuc) : complement (complement n) = n := by
  cases n <;> rfl

theorem reverse_complement_involutive (l : List Nuc) :
    reverse_complement (reverse_complement l) = l := by
  unfold reverse_complement
  rw [List.map_reverse, List.reverse_reverse, List.map_map]
  have h : (complement ∘ complement) = id := by
    funext n
    exact complement_complement n
  rw [h, List.map_id]

/-- C1: the extraction stage slices `contig[start-1:end]` on the
forward strand (`start < end`), reverse-complements
`contig[end-1:start]` on the reverse strand (`start > end`), and
reverse complement is an involution on nucleotide slices. -/
theorem extract_gene_strand_spec (contig : List Nuc) (s e : Nat) :
    (s < e → extract_gene contig s e = pySlice contig (s - 1) e) ∧
    (e < s → extract_gene contig s e = reverse_complement (pySlice contig (e - 1) s)) ∧
    (∀ l : List Nuc, reverse_complement (reverse_complement l) = l) := by
  refine ⟨fun h => ?_, fun h => ?_, reverse_complement_involutive⟩
  · simp [extract_gene, h]
  · have h' : ¬ s < e := by omega
    simp [extract_gene, h']

/-- Witness for C1 at a concrete contig and concrete forward / reverse
coordinates. -/
theorem extract_gene_strand_witness :
    (extract_gene contigW 2 5 = pySlice contigW 1 5) ∧
    (extract_gene contigW 5 2 = reverse_complement (pySlice contigW 1 5)) ∧
    (reverse_complement (reverse_complement contigW) = contigW) :=
  ⟨(extract_gene_strand_spec contigW 2 5).1 (by decide),
   (extract_gene_strand_spec contigW 5 2).2.1 (by decide),
   (extract_gene_strand_spec contigW 2 5).2.2 contigW⟩

/-- C10: a hit with `start = end` always takes the reverse-strand
branch: the result is the reverse complement of the (at most
single-nucleotide) slice `contig[start-1:start]`, never the forward
slice. -/
theorem extract_gene_equal_coords (contig : List Nuc) (s : Nat) :
    extract_gene contig s s = reverse_complement (pySlice contig (s - 1) s) ∧
    (pySlice contig (s - 1) s).length ≤ 1 := by
  constructor
  · simp [extract_gene]
  · have h : (pySlice contig (s - 1) s).length ≤ s - (s - 1) := by
      unfold pySlice
      exact le_trans (List.length_take_le _ _) (le_refl _)
    omega

theorem filter_length_mono {α : Type} {p q : α → Bool}
    (h : ∀ a, p a = true → q a = true) (l : List α) :
    (l.filter p).length ≤ (l.filter q).length := by
  induction l with
  | nil => simp
  | cons a t ih =>
    by_cases hp : p a = true
    · rw [List.filter_cons_of_pos hp, List.filter_cons_of_pos (h a hp)]
      simpa using ih
    · rw [List.filter_cons_of_neg (by simpa using hp)]
      cases hq : q a
      · rw [List.filter_cons_of_neg (by simp [hq])]
        exact ih
      · rw [List.filter_cons_of_pos hq]
        exact le_trans ih (Nat.le_succ _)

/-- C2: a hit is retained by `run_tblastn` iff it is a raw hit with
`pident ≥ identity_threshold` and `qcovs ≥ coverage_threshold`; raising
either threshold never increases the number of retained hits. -/
theorem run_tblastn_filter_spec (i c : ℚ) (hits : List RawHit) :
    (∀ h : RawHit, h ∈ run_tblastn i c hits ↔
      h ∈ hits ∧ i ≤ h.pident ∧ c ≤ h.qcovs) ∧
    (∀ i' c' : ℚ, i ≤ i' → c ≤ c' →
      (run_tblastn i' c' hits).length ≤ (run_tblastn i c hits).length) := by
  constructor
  · intro h
    simp [run_tblastn, List.mem_filter, hitPasses, and_assoc]
  · intro i' c' hi hc
    apply filter_length_mono
    intro a ha
    simp only [hitPasses, Bool.and_eq_true, decide_eq_true_eq] at ha ⊢
    exact ⟨le_trans hi ha.1, le_trans hc ha.2⟩

/-- Witness for C2: concrete membership characterization and concrete
monotonicity instance at raised thresholds. -/
theorem run_tblastn_filter_witness :
    (hitW ∈ run_tblastn 90 90 [hitW, hitW2] ↔
      hitW ∈ [hitW, hitW2] ∧ (90 : ℚ) ≤ hitW.pident ∧ (90 : ℚ) ≤ hitW.qcovs) ∧
    (run_tblastn 95 92 [hitW, hitW2]).length ≤
      (run_tblastn 90 90 [hitW, hitW2]).length :=
  ⟨(run_tblastn_filter_spec 90 90 [hitW, hitW2]).1 hitW,
   (run_tblastn_filter_spec 90 90 [hitW, hitW2]).2 95 92 (by norm_num) (by norm_num)⟩

theorem split_contigs_file_nil (cs : Nat) (h : 0 < cs) :
    split_contigs_file [] cs = [] := by
  unfold split_contigs_file
  have h0 : (([] : List String).length + cs - 1) / cs = 0 :=
    Nat.div_eq_of_lt (by simp; omega)
  rw [h0]
  rfl

theorem numChunks_pos_step (cs n : Nat) (hc : 0 < cs) (hn : 0 < n) :
    (n + cs - 1) / cs = (n - cs + cs - 1) / cs + 1 := by
  by_cases h : cs ≤ n
  · have e1 : n + cs - 1 = (n - 1) + cs := by omega
    have e2 : n - cs + cs - 1 = n - 1 := by omega
    rw [e1, e2, Nat.add_div_right _ hc]
  · have e2 : n - cs = 0 := by omega
    have l1 : (0 + cs - 1) / cs = 0 := Nat.div_eq_of_lt (by omega)
    have l2 : (n + cs - 1) / cs = 1 :=
      Nat.div_eq_of_lt_le (by omega) (by omega)
    rw [e2, l1, l2]

theorem split_contigs_file_step (lines : List String) (cs : Nat)
    (hc : 0 < cs) (hl : lines ≠ []) :
    split_contigs_file lines cs =
      lines.take cs :: split_contigs_file (lines.drop cs) cs := by
  have hn : 0 < lines.length := List.length_pos.mpr hl
  unfold split_contigs_file
  rw [List.length_drop, numChunks_pos_step cs lines.length hc hn,
    List.range_succ_eq_map, List.map_cons]
  congr 1
  · simp
  · rw [List.map_map]
    congr 1
    funext i
    simp only [Function.comp_apply]
    rw [List.drop_drop]
    congr 2
    rw [Nat.succ_mul, Nat.add_comm]

theorem split_contigs_file_join (cs : Nat) (hc : 0 < cs) :
    ∀ (n : Nat) (lines : List String), lines.length ≤ n →
      (split_contigs_file lines cs).flatten = lines := by
  intro n
  induction n with
  | zero =>
    intro lines hl
    have h0 : lines = [] := List.length_eq_zero.mp (Nat.le_zero.mp hl)
    subst h0
    rw [split_contigs_file_nil cs hc]
    rfl
  | succ n ih =>
    intro lines hl
    rcases eq_or_ne lines [] with h | h
    · subst h
      rw [split_contigs_file_nil cs hc]
      rfl
    · rw [split_contigs_file_step lines cs hc h, List.flatten_cons,
        ih (lines.drop cs) (by rw [List.length_drop]
                               have := List.length_pos.mpr h
                               omega)]
      exact List.take_append_drop cs lines

/-- C6: the chunked driver's registry partition is a disjoint
positional cover: with positive chunk size it produces
`⌈n / chunk_size⌉` chunks, their in-order concatenation is exactly the
original registry, and chunk `i` has length `min chunk_size (n - i·chunk_size)`
(so chunk size 2 over 5 lines gives sizes 2, 2, 1). -/
theorem split_contigs_file_partition (lines : List String) (cs : Nat) (h : 0 < cs) :
    (split_contigs_file lines cs).length = (lines.length + cs - 1) / cs ∧
    (split_contigs_file lines cs).flatten = lines ∧
    ∀ i (hi : i < (split_contigs_file lines cs).length),
      ((split_contigs_file lines cs).get ⟨i, hi⟩).length =
        min cs (lines.length - i * cs) := by
  refine ⟨by simp [split_contigs_file],
    split_contigs_file_join cs h lines.length lines (le_refl _), ?_⟩
  intro i hi
  unfold split_contigs_file at hi ⊢
  rw [List.get_eq_getElem, List.getElem_map, List.getElem_range,
    List.length_take, List.length_drop]

/-- Witness for C6: chunk size 2 over the 5-line registry gives 3
chunks whose concatenation is the registry, with sizes
`min 2 (5 - 2i)` = 2, 2, 1. -/
theorem split_contigs_file_partition_witness :
    (split_contigs_file linesW 2).length = 3 ∧
    (split_contigs_file linesW 2).flatten = linesW ∧
    ∀ i (hi : i < (split_contigs_file linesW 2).length),
      ((split_contigs_file linesW 2).get ⟨i, hi⟩).length =
        min 2 (linesW.length - i * 2) :=
  split_contigs_file_partition linesW 2 (by decide)

theorem length_filterMap_eq (f : α → Option β) (l : List α) :
    (l.filterMap f).length = (l.filter fun a => (f a).isSome).length := by
  induction l with
  | nil => rfl
  | cons a t ih =>
    rw [List.filterMap_cons, List.filter_cons]
    cases hfa : f a with
    | none => simpa [hfa] using ih
    | some b => simpa [hfa] using ih

theorem filterMap_filter_of_none {p : α → Bool} (f : α → Option β)
    (hf : ∀ a, p a = false → f a = none) (l : List α) :
    l.filterMap f = (l.filter p).filterMap f := by
  induction l with
  | nil => rfl
  | cons a t ih =>
    rw [List.filterMap_cons, List.filter_cons]
    cases hpa : p a with
    | false => simp [hf a hpa, ih]
    | true => simp [List.filterMap_cons, ih]

/-- Amended C5: the extraction stage appends exactly one record per
(registry genome, filtered hit) pair whose genome file exists, contains
the hit's subject contig id, and yields a non-empty slice — one record
per surviving hit only when the subject contig id occurs in a single
genome's file. -/
theorem process_results_pair_count (fs : String → Option ContigFile)
    (registry : List Genome) (hits : List RawHit) :
    (process_results fs registry hits).length =
      ((genomeHitPairs registry hits).filter fun p => survivesB fs p.1 p.2).length := by
  induction registry with
  | nil => rfl
  | cons g reg ih =>
    unfold process_results genomeHitPairs at *
    rw [List.flatMap_cons, List.flatMap_cons, List.filter_append,
      List.length_append, List.length_append, ih]
    congr 1
    rw [List.filter_map, List.length_map]
    cases hg : fs g.contig_path with
    | none =>
      have hempty : (hits.filter ((fun p => survivesB fs p.1 p.2) ∘ fun h => (g, h))) = [] := by
        apply List.filter_eq_nil_iff.mpr
        intro h _
        simp [Function.comp, survivesB, hg]
      simp [hempty]
    | some file =>
      rw [length_filterMap_eq]
      congr 1
      apply List.filter_congr
      intro h _
      simp [Function.comp, survivesB, hg]

/-- C5 as stated is false: with one surviving filtered hit whose
subject contig id `c1` occurs in two registry genomes' files, the
extraction stage appends two records, not exactly one. -/
theorem process_results_per_hit_counterexample :
    hitsC5.length = 1 ∧ (process_results fsC5 regC5 hitsC5).length = 2 :=
  ⟨rfl, rfl⟩

/-- C8: missing resources are never fatal. The database builder turns a
missing contig file into a warning (one per missing, non-skipped
registry line) and builds exactly the databases it would build on the
registry restricted to present files; the extraction stage's output is
unchanged by deleting registry genomes whose contig file is absent, and
unchanged by deleting hits that survive against no genome (absent
subject contig id or empty slice) — every other genome and hit is still
processed. -/
theorem missing_resources_nonfatal (fs : String → Option ContigFile)
    (dbE : String → Bool) (force : Bool)
    (registry : List Genome) (hits : List RawHit) :
    (create_blast_db fs dbE force registry).warnings =
      (registry.filter fun g =>
        !(!force && dbE g.id_name) && (fs g.contig_path).isNone).map Genome.id_name ∧
    (create_blast_db fs dbE force registry).built =
      (create_blast_db fs dbE force
        (registry.filter fun g => (fs g.contig_path).isSome)).built ∧
    process_results fs registry hits =
      process_results fs (registry.filter fun g => (fs g.contig_path).isSome) hits ∧
    process_results fs registry hits =
      process_results fs registry
        (hits.filter fun h => registry.any fun g => survivesB fs g h) := by
  refine ⟨?_, ?_, ?_, ?_⟩
  · induction registry with
    | nil => rfl
    | cons g reg ih =>
      cases hforce : force <;> cases hdb : dbE g.id_name <;>
        cases hg : fs g.contig_path <;>
        simp only [hforce, hdb] at ih <;>
        simp [create_blast_db, hforce, hdb, hg, List.filter_cons, ih]
  · induction registry with
    | nil => rfl
    | cons g reg ih =>
      cases hforce : force <;> cases hdb : dbE g.id_name <;>
        cases hg : fs g.contig_path <;>
        simp only [hforce, hdb] at ih <;>
        simp [create_blast_db, hforce, hdb, hg, List.filter_cons, ih]
  · induction registry with
    | nil => rfl
    | cons g reg ih =>
      unfold process_results at *
      cases hg : fs g.contig_path with
      | none => simp [List.flatMap_cons, hg, ih]
      | some file => simp [List.flatMap_cons, hg, ih]
  · have key : ∀ reg' : List Genome, (∀ g ∈ reg', ∀ h : RawHit,
        (registry.any fun g0 => survivesB fs g0 h) = false → survivesB fs g h = false) →
        process_results fs reg' hits =
          process_results fs reg'
            (hits.filter fun h => registry.any fun g => survivesB fs g h) := by
      intro reg' hsub
      induction reg' with
      | nil => rfl
      | cons g reg ih =>
        unfold process_results at *
        rw [List.flatMap_cons, List.flatMap_cons,
          ih (fun g0 hg0 => hsub g0 (List.mem_cons_of_mem g hg0))]
        congr 1
        cases hg : fs g.contig_path with
        | none => rfl
        | some file =>
          have hnone : ∀ h : RawHit,
              (registry.any fun g0 => survivesB fs g0 h) = false →
              extractHit g file h = none := by
            intro h hfalse
            have hs := hsub g (List.mem_cons_self g reg) h hfalse
            unfold survivesB at hs
            rw [hg] at hs
            cases hex : extractHit g file h with
            | none => rfl
            | some e => simp [hex] at hs
          exact filterMap_filter_of_none _ hnone hits
    apply key registry
    intro g hg h hfalse
    have := List.any_eq_false.mp hfalse g hg
    simpa using this

theorem lookupSeq_canonFrom [DecidableEq α] (l : List α) (k : Nat) (s : α) :
    lookupSeq (canonFrom l k) s =
      if s ∈ l then some (idx l s + k) else none := by
  induction l generalizing k with
  | nil => simp [canonFrom, lookupSeq]
  | cons a t ih =>
    by_cases h : a = s
    · subst h
      simp [canonFrom, lookupSeq, idx]
    · rw [canonFrom, lookupSeq, if_neg h, ih]
      by_cases hm : s ∈ t
      · have hs : s ∈ a :: t := List.mem_cons_of_mem a hm
        rw [if_pos hm, if_pos hs, idx, if_neg h]
        congr 1
        omega
      · have hs : s ∉ a :: t := by
          simp [List.mem_cons, hm]
          intro he
          exact absurd he.symm h
        rw [if_neg hm, if_neg hs]

theorem canonFrom_append (l₁ l₂ : List α) (k : Nat) :
    canonFrom (l₁ ++ l₂) k = canonFrom l₁ k ++ canonFrom l₂ (k + l₁.length) := by
  induction l₁ generalizing k with
  | nil => simp [canonFrom]
  | cons a t ih =>
    simp only [List.cons_append, canonFrom, List.append_eq, ih, List.length_cons]
    have he : k + 1 + t.length = k + (t.length + 1) := by omega
    rw [he]

theorem firstOccs_append_singleton [DecidableEq α] (E : List α) (s : α) :
    firstOccs (E ++ [s]) =
      if s ∈ firstOccs E then firstOccs E else firstOccs E ++ [s] := by
  unfold firstOccs
  rw [List.foldl_append]
  rfl

theorem mem_firstOccs [DecidableEq α] (E : List α) :
    ∀ a : α, a ∈ firstOccs E ↔ a ∈ E := by
  induction E using List.reverseRecOn with
  | nil => simp [firstOccs]
  | append_singleton E s ih =>
    intro a
    rw [firstOccs_append_singleton]
    by_cases hs : s ∈ firstOccs E
    · rw [if_pos hs]
      have hsE : s ∈ E := (ih s).mp hs
      rw [ih a]
      constructor
      · exact fun h => List.mem_append_left _ h
      · intro h
        rcases List.mem_append.mp h with h1 | h1
        · exact h1
        · have ha : a = s := by simpa using h1
          rw [ha]
          exact hsE
    · rw [if_neg hs]
      simp [List.mem_append, ih a]

theorem idx_lt_length [DecidableEq α] (l : List α) (a : α) (h : a ∈ l) :
    idx l a < l.length := by
  induction l with
  | nil => simp at h
  | cons b t ih =>
    rw [idx]
    by_cases hb : b = a
    · simp [hb]
    · rw [if_neg hb]
      have ht : a ∈ t := by
        rcases List.mem_cons.mp h with h1 | h1
        · exact absurd h1.symm hb
        · exact h1
      simpa using ih ht

theorem idx_append_left [DecidableEq α] (l₁ l₂ : List α) (a : α) (h : a ∈ l₁) :
    idx (l₁ ++ l₂) a = idx l₁ a := by
  induction l₁ with
  | nil => simp at h
  | cons b t ih =>
    rw [List.cons_append, idx, idx]
    by_cases hb : b = a
    · simp [hb]
    · rw [if_neg hb, if_neg hb]
      have ht : a ∈ t := by
        rcases List.mem_cons.mp h with h1 | h1
        · exact absurd h1.symm hb
        · exact h1
      rw [ih ht]

theorem idx_append_self [DecidableEq α] (l : List α) (a : α) (h : a ∉ l) :
    idx (l ++ [a]) a = l.length := by
  induction l with
  | nil => simp [idx]
  | cons b t ih =>
    rw [List.cons_append, idx]
    have hb : b ≠ a := by
      intro he
      exact h (he ▸ List.mem_cons_self b t)
    rw [if_neg hb, ih (fun ht => h (List.mem_cons_of_mem b ht))]
    rfl

theorem idx_inj [DecidableEq α] (l : List α) (a b : α)
    (ha : a ∈ l) (hb : b ∈ l) (h : idx l a = idx l b) : a = b := by
  induction l with
  | nil => simp at ha
  | cons c t ih =>
    by_cases hca : c = a
    · by_cases hcb : c = b
      · rw [← hca, hcb]
      · rw [idx, idx, if_pos hca, if_neg hcb] at h
        simp at h
    · by_cases hcb : c = b
      · rw [idx, idx, if_neg hca, if_pos hcb] at h
        simp at h
      · rw [idx, idx, if_neg hca, if_neg hcb] at h
        have ha' : a ∈ t := by
          rcases List.mem_cons.mp ha with h1 | h1
          · exact absurd h1.symm hca
          · exact h1
        have hb' : b ∈ t := by
          rcases List.mem_cons.mp hb with h1 | h1
          · exact absurd h1.symm hcb
          · exact h1
        exact ih ha' hb' (by omega)

theorem firstOccs_prefix [DecidableEq α] (F E : List α) :
    ∃ G : List α, firstOccs (E ++ F) = firstOccs E ++ G := by
  induction F generalizing E with
  | nil => exact ⟨[], by simp⟩
  | cons f F ih =>
    rw [List.append_cons]
    rcases ih (E ++ [f]) with ⟨G, hG⟩
    rw [hG, firstOccs_append_singleton]
    by_cases hf : f ∈ firstOccs E
    · rw [if_pos hf]
      exact ⟨G, rfl⟩
    · rw [if_neg hf]
      exact ⟨[f] ++ G, by rw [List.append_assoc]⟩

theorem idx_firstOccs_stable [DecidableEq α] (E F : List α) (s : α)
    (h : s ∈ firstOccs E) :
    idx (firstOccs (E ++ F)) s = idx (firstOccs E) s := by
  rcases firstOccs_prefix F E with ⟨G, hG⟩
  rw [hG, idx_append_left _ _ _ h]

theorem lookupSeq_canonState [DecidableEq α] (E : List α) (s : α) :
    lookupSeq (canonState E).assign s =
      if s ∈ firstOccs E then some (idx (firstOccs E) s + 1) else none := by
  unfold canonState
  rw [lookupSeq_canonFrom]

theorem pass1step_canonState [DecidableEq α] (E : List α) (s : α) :
    pass1step (canonState E) s = canonState (E ++ [s]) := by
  unfold pass1step
  rw [lookupSeq_canonState]
  by_cases hs : s ∈ firstOccs E
  · rw [if_pos hs]
    unfold canonState
    rw [firstOccs_append_singleton, if_pos hs]
  · rw [if_neg hs]
    unfold canonState
    rw [firstOccs_append_singleton, if_neg hs, canonFrom_append]
    simp [canonFrom, Nat.add_comm]

theorem emptyAssign_canonState [DecidableEq α] :
    emptyAssign α = canonState ([] : List α) := by
  rfl

theorem foldl_pass1step_canonState [DecidableEq α] (L : List α) :
    ∀ E : List α, L.foldl pass1step (canonState E) = canonState (E ++ L) := by
  induction L with
  | nil => intro E; simp
  | cons a L ih =>
    intro E
    rw [List.foldl_cons, pass1step_canonState, ih (E ++ [a]), ← List.append_cons]

theorem getAssign_canonState [DecidableEq α] (E : List α) (s : α) :
    getAssign (canonState E) s =
      (idx (firstOccs (E ++ [s])) s + 1, canonState (E ++ [s])) := by
  unfold getAssign
  rw [lookupSeq_canonState]
  by_cases hs : s ∈ firstOccs E
  · rw [if_pos hs]
    have hlt : idx (firstOccs E) s < (firstOccs E).length :=
      idx_lt_length _ _ hs
    have hc : ((some (idx (firstOccs E) s + 1)).getD (canonState E).counter) =
        idx (firstOccs E) s + 1 := rfl
    rw [hc]
    have hne : idx (firstOccs E) s + 1 ≠ (canonState E).counter := by
      unfold canonState
      simp only []
      omega
    rw [if_neg hne]
    have hfo : firstOccs (E ++ [s]) = firstOccs E := by
      rw [firstOccs_append_singleton, if_pos hs]
    rw [hfo]
    have hcs : canonState (E ++ [s]) = canonState E := by
      unfold canonState
      rw [hfo]
    rw [hcs]
  · rw [if_neg hs]
    have hc : ((none : Option Nat).getD (canonState E).counter) =
        (canonState E).counter := rfl
    rw [hc, if_pos rfl]
    have hfo : firstOccs (E ++ [s]) = firstOccs E ++ [s] := by
      rw [firstOccs_append_singleton, if_neg hs]
    simp only [Prod.mk.injEq]
    constructor
    · rw [hfo, idx_append_self _ _ hs]
      rfl
    · unfold canonState
      rw [hfo]
      simp only [AssignState.mk.injEq]
      constructor
      · rw [canonFrom_append]
        simp [canonFrom, Nat.add_comm]
      · simp

theorem generate_csv_go_canonState [DecidableEq α] [DecidableEq β]
    (tr : α → β) (qid : String) :
    ∀ (ext : List (String × α)) (En : List α) (Ep : List β)
      (Fn : List α) (Fp : List β),
      Fn = En ++ ext.map Prod.snd →
      Fp = Ep ++ ext.map (fun q => tr q.2) →
      generate_csv_go tr qid ext (canonState En) (canonState Ep) =
        ext.map (fun p =>
          ⟨p.1, qid, idx (firstOccs Fn) p.2 + 1, p.2,
           idx (firstOccs Fp) (tr p.2) + 1, tr p.2⟩) := by
  intro ext
  induction ext with
  | nil => intro En Ep Fn Fp hFn hFp; rfl
  | cons p rest ih =>
    intro En Ep Fn Fp hFn hFp
    obtain ⟨iso, ns⟩ := p
    rw [List.map_cons] at hFn hFp
    simp only [generate_csv_go, getAssign_canonState]
    rw [ih (En ++ [ns]) (Ep ++ [tr ns]) Fn Fp
      (by rw [hFn, List.append_cons])
      (by rw [hFp, List.append_cons])]
    rw [List.map_cons]
    congr 1
    have hmn : ns ∈ firstOccs (En ++ [ns]) :=
      (mem_firstOccs _ ns).mpr (List.mem_append_right En (by simp))
    have hmp : tr ns ∈ firstOccs (Ep ++ [tr ns]) :=
      (mem_firstOccs _ (tr ns)).mpr (List.mem_append_right Ep (by simp))
    have hn : idx (firstOccs Fn) ns = idx (firstOccs (En ++ [ns])) ns := by
      rw [hFn, List.append_cons]
      exact idx_firstOccs_stable _ _ _ hmn
    have hp : idx (firstOccs Fp) (tr ns) = idx (firstOccs (Ep ++ [tr ns])) (tr ns) := by
      rw [hFp, List.append_cons]
      exact idx_firstOccs_stable _ _ _ hmp
    simp only [hn, hp]

/-- C3: the final results table assigns every extracted sequence
exactly one nucleotide and one protein cluster id; ids are
`1 + ` the first-occurrence index of the row's sequence in the order the
program encounters sequences (cluster-file representatives first, then
the extracted sequences themselves, covering the fallback path); and
two rows share a nucleotide (protein) cluster id iff their nucleotide
(translated protein) sequences are exactly identical. -/
theorem generate_csv_cluster_spec [DecidableEq α] [DecidableEq β] (tr : α → β)
    (qid : String) (nucReps : List α) (protReps : List β)
    (extracted : List (String × α)) :
    generate_csv tr qid nucReps protReps extracted =
      clusterRowsSpec tr qid nucReps protReps extracted ∧
    (generate_csv tr qid nucReps protReps extracted).length = extracted.length ∧
    ∀ r1 ∈ generate_csv tr qid nucReps protReps extracted,
      ∀ r2 ∈ generate_csv tr qid nucReps protReps extracted,
        (r1.nucleotide_cluster = r2.nucleotide_cluster ↔
          r1.nucleotide_sequence = r2.nucleotide_sequence) ∧
        (r1.protein_cluster = r2.protein_cluster ↔
          r1.protein_sequence = r2.protein_sequence) := by
  have hfold1 : nucReps.foldl pass1step (emptyAssign α) = canonState nucReps := by
    rw [emptyAssign_canonState, foldl_pass1step_canonState]
    simp
  have hfold2 : protReps.foldl pass1step (emptyAssign β) = canonState protReps := by
    rw [emptyAssign_canonState, foldl_pass1step_canonState]
    simp
  have hmain : generate_csv tr qid nucReps protReps extracted =
      clusterRowsSpec tr qid nucReps protReps extracted := by
    unfold generate_csv clusterRowsSpec
    rw [hfold1, hfold2]
    exact generate_csv_go_canonState tr qid extracted nucReps protReps _ _ rfl rfl
  refine ⟨hmain, ?_, ?_⟩
  · rw [hmain]
    unfold clusterRowsSpec
    rw [List.length_map]
  · intro r1 h1 r2 h2
    rw [hmain] at h1 h2
    unfold clusterRowsSpec at h1 h2
    rcases List.mem_map.mp h1 with ⟨p1, hp1, he1⟩
    rcases List.mem_map.mp h2 with ⟨p2, hp2, he2⟩
    subst he1
    subst he2
    have m1 : p1.2 ∈ firstOccs (nucReps ++ extracted.map Prod.snd) :=
      (mem_firstOccs _ _).mpr
        (List.mem_append_right _ (List.mem_map_of_mem Prod.snd hp1))
    have m2 : p2.2 ∈ firstOccs (nucReps ++ extracted.map Prod.snd) :=
      (mem_firstOccs _ _).mpr
        (List.mem_append_right _ (List.mem_map_of_mem Prod.snd hp2))
    have q1 : tr p1.2 ∈ firstOccs (protReps ++ extracted.map (fun q => tr q.2)) :=
      (mem_firstOccs _ _).mpr
        (List.mem_append_right _ (List.mem_map_of_mem (fun q => tr q.2) hp1))
    have q2 : tr p2.2 ∈ firstOccs (protReps ++ extracted.map (fun q => tr q.2)) :=
      (mem_firstOccs _ _).mpr
        (List.mem_append_right _ (List.mem_map_of_mem (fun q => tr q.2) hp2))
    dsimp only
    constructor
    · constructor
      · intro h
        exact idx_inj _ _ _ m1 m2 (by omega)
      · intro h
        rw [h]
    · constructor
      · intro h
        exact idx_inj _ _ _ q1 q2 (by omega)
      · intro h
        rw [h]

/-- Witness for C3 at a concrete table of three extracted sequences. -/
theorem generate_csv_cluster_witness :
    generate_csv trW "Q1" nucRepsW protRepsW extractedW =
      clusterRowsSpec trW "Q1" nucRepsW protRepsW extractedW ∧
    (rowW1.nucleotide_cluster = rowW3.nucleotide_cluster ↔
      rowW1.nucleotide_sequence = rowW3.nucleotide_sequence) :=
  ⟨(generate_csv_cluster_spec trW "Q1" nucRepsW protRepsW extractedW).1,
   ((generate_csv_cluster_spec trW "Q1" nucRepsW protRepsW extractedW).2.2
     rowW1 (by decide) rowW3 (by decide)).1⟩

/-- C4 fails on the code: `generate_summary` computes
`positive_samples` as `df["Subject"].nunique()` — the number of
distinct subject **contig** ids in the filtered table — not the number
of distinct isolates contributing a surviving extraction.  On a
1-genome registry whose assembly has qualifying hits on two contigs,
the summary reports `Samples Positive: 2` although exactly one isolate
(`G1`) contributes extractions. -/
theorem generate_summary_positive_bug :
    (generate_summary registryLinesC4 (some hitsC4) none none).total_samples = 1 ∧
    (generate_summary registryLinesC4 (some hitsC4) none none).positive_samples = 2 ∧
    nunique ((process_results fsC4 regC4 hitsC4).map Extraction.isolate) = 1 :=
  ⟨rfl, rfl, rfl⟩

/-- C9: when no hit passes filtering for a query, no filtered-results
file is written, the extraction stage produces no output (it returns at
its guard), and the summary file is still produced, reporting the full
screened count with zero positives, zero unique nucleotide sequences
and zero unique protein sequences. -/
theorem empty_results_summary (i c : ℚ) (hits : List RawHit) (lines : List String)
    (fs : String → Option ContigFile) (registry : List Genome)
    (h : run_tblastn i c hits = []) :
    saveFilteredResults i c hits = none ∧
    process_results_checked (saveFilteredResults i c hits) fs registry = [] ∧
    generate_summary lines none none none = ⟨lines.length, 0, 0, 0⟩ := by
  have hsave : saveFilteredResults i c hits = none := by
    unfold saveFilteredResults
    simp [h]
  refine ⟨hsave, ?_, rfl⟩
  rw [hsave]
  unfold process_results_checked
  rfl

/-- Witness for C9: a query whose only raw hit fails the identity
threshold. -/
theorem empty_results_summary_witness :
    saveFilteredResults 90 90 [hitW2] = none ∧
    process_results_checked (saveFilteredResults 90 90 [hitW2]) fsC5 regC5 = [] ∧
    generate_summary linesW none none none = ⟨linesW.length, 0, 0, 0⟩ :=
  empty_results_summary 90 90 [hitW2] linesW fsC5 regC5 (by decide)

theorem run_screening_fst (cid : Nat) (o : ChunkOutcome) :
    (run_screening cid o).1 = cid := by
  cases o <;> rfl

theorem foldl_removeFile (ns : List String) :
    ∀ files : List String,
      ns.foldl removeFile files = files.filter fun f => decide (f ∉ ns) := by
  induction ns with
  | nil =>
    intro files
    simp
  | cons n ns ih =>
    intro files
    rw [List.foldl_cons, ih]
    unfold removeFile
    rw [List.filter_filter]
    apply List.filter_congr
    intro a _
    by_cases h1 : a = n
    · simp [h1]
    · by_cases h2 : a ∈ ns <;> simp [h1, h2]

/-- C7 as stated is false at a reachable input: on a run with an empty
registry the split produces zero chunks, the average-time log line
(`total_time/len(chunk_files)`) raises `ZeroDivisionError`, and the
driver exits 1, not 0. -/
theorem parallel_driver_exit0_counterexample :
    (parallel_main [] 1000 [] fun _ => ChunkOutcome.success).exitCode = 1 ∧
    (parallel_main [] 1000 [] fun _ => ChunkOutcome.success).exitCode ≠ 0 :=
  ⟨rfl, by decide⟩

/-- Amended C7: failure isolation in the chunked driver, on any run
whose registry is non-empty (so at least one chunk exists).  Whatever
each chunk's pipeline process does (exit 0, exit non-zero, or raise),
the driver collects every chunk id in order, deletes every temporary
chunk registry file, and itself finishes with exit code 0 — one
chunk's failure never halts or rolls back the others, and cleanup is
unconditional.  On an empty registry the driver instead dies with
`ZeroDivisionError` at the average-time log line and exits non-zero. -/
theorem parallel_driver_isolation (lines : List String) (cs : Nat)
    (files0 : List String) (outcomes : Nat → ChunkOutcome)
    (hc : 0 < cs) (hl : lines ≠ []) :
    (parallel_main lines cs files0 outcomes).exitCode = 0 ∧
    (parallel_main lines cs files0 outcomes).completed =
      List.range (split_contigs_file lines cs).length ∧
    (parallel_main lines cs files0 outcomes).files =
      files0.filter (fun f =>
        decide (f ∉ (List.range (split_contigs_file lines cs).length).map chunkFileName)) := by
  have hn : 0 < lines.length := List.length_pos.mpr hl
  have hlen : (split_contigs_file lines cs).length ≠ 0 := by
    have h1 : (split_contigs_file lines cs).length = (lines.length + cs - 1) / cs := by
      simp [split_contigs_file]
    have h2 : 0 < (lines.length + cs - 1) / cs := Nat.div_pos (by omega) hc
    omega
  have hpm : parallel_main lines cs files0 outcomes =
      { completed := (((List.range (split_contigs_file lines cs).length).map
            fun i => run_screening i (outcomes i)).map Prod.fst),
        files := ((List.range (split_contigs_file lines cs).length).map chunkFileName).foldl
          removeFile
          (files0 ++ (List.range (split_contigs_file lines cs).length).map chunkFileName),
        exitCode := 0 } := by
    simp only [parallel_main]
    rw [if_neg hlen]
  rw [hpm]
  refine ⟨rfl, ?_, ?_⟩
  · rw [List.map_map]
    have he : (Prod.fst ∘ fun i => run_screening i (outcomes i)) = fun i : Nat => i := by
      funext i
      exact run_screening_fst i (outcomes i)
    rw [he]
    exact List.map_id _
  · rw [foldl_removeFile, List.filter_append]
    have hnil : ((List.range (split_contigs_file lines cs).length).map chunkFileName).filter
        (fun f => decide
          (f ∉ (List.range (split_contigs_file lines cs).length).map chunkFileName)) = [] := by
      apply List.filter_eq_nil_iff.mpr
      intro a ha
      simp [ha]
    rw [hnil, List.append_nil]

/-- Witness for the amended C7: a 5-line registry split into 3 chunks,
every chunk failing (one by exit code, the others by exception) — all
chunk ids are still collected, all chunk files removed, exit code 0. -/
theorem parallel_driver_isolation_witness :
    (parallel_main linesW 2 filesBaseW outcomesW).exitCode = 0 ∧
    (parallel_main linesW 2 filesBaseW outcomesW).completed =
      List.range (split_contigs_file linesW 2).length ∧
    (parallel_main linesW 2 filesBaseW outcomesW).files =
      filesBaseW.filter (fun f =>
        decide (f ∉ (List.range (split_contigs_file linesW 2).length).map chunkFileName)) :=
  parallel_driver_isolation linesW 2 filesBaseW outcomesW (by decide) (by decide)

end ScreenGenes
